import Mathlib

/-!
Verification of the expression parser and evaluator of
`src/rum-templates/src/language/expression.rs`.

The Rust code is shallowly embedded: the peekable token iterator becomes
explicit token-list state passing, fallible code returns `Except Error`,
and the parser loops (which are not structurally recursive on the token
list alone, because sub-parsers are re-invoked on buffered token slices)
take an explicit fuel parameter; running out of fuel is the `none` case of
an outer `Option`, kept separate from the `Error` results the code itself
produces.

Types that the expression module imports from elsewhere in the repository
(the lexer's `Token`/`Value`, `Op`, `Term`, `Context`, `Error`) are not
part of the given sources; they are modelled from the specification, as
marked on each definition.
-/

/-- Modelled from the spec (section 3): the polymorphic runtime value type of
the template language. The payload of `Float` is the raw bit pattern of the
`f64`, kept opaque because no verified claim exercises float arithmetic. -/
inductive Value where
  | Integer (i : Int)
  | Float (bits : Nat)
  | Str (s : String)
  | Boolean (b : Bool)
  | Hash (entries : List (String × Value))
  | Null
  | List (elems : List Value)

/-- Modelled from the spec (section 3): lexical tokens produced by the external
tokenizer and consumed by the expression parser. -/
inductive Token where
  | Value (v : Value)
  | Var (name : String)
  | Plus
  | Minus
  | Star
  | Slash
  | Not
  | And
  | Or
  | Eq
  | Ne
  | Lt
  | Gt
  | Le
  | Ge
  | Dot
  | Comma
  | RoundBracketStart
  | RoundBracketEnd
  | SquareBracketStart
  | SquareBracketEnd
  | BlockEnd

/-- Modelled from the spec (section 3): a token together with its positional
context, which the core treats as opaque pass-through data for diagnostics.
The position is abstracted to a number. -/
structure TokenWithContext where
  token : Token
  pos : Nat

/-- The token stream state: the not-yet-consumed suffix of the token list. -/
abbrev Tokens := List TokenWithContext

/-- Modelled from the spec (section 3): the operator kinds. -/
inductive Op where
  | Add
  | Sub
  | Mul
  | Div
  | And
  | Or
  | Not
  | Eq
  | Ne
  | Lt
  | Gt
  | Le
  | Ge

/-- Modelled from the spec (section 4.1): the fixed precedence rank table.
Lower rank binds tighter: unary tightest, then multiplicative, additive,
comparisons, boolean and/or. -/
def Op.rank : Op → Nat
  | .Not => 0
  | .Mul => 1
  | .Div => 1
  | .Add => 2
  | .Sub => 2
  | .Eq => 3
  | .Ne => 3
  | .Lt => 3
  | .Gt => 3
  | .Le => 3
  | .Ge => 3
  | .And => 4
  | .Or => 4

/-- Modelled from the spec (section 4.1): the precedence comparison used by
the parser, `second_op < op` in the Rust code; lower rank binds tighter. -/
def Op.ltOp (a b : Op) : Bool :=
  a.rank < b.rank

/-- Modelled from the spec (section 3): `Op::from_token`, mapping operator
tokens to operators and everything else to `none`. -/
def Op.from_token : Token → Option Op
  | .Plus => some .Add
  | .Minus => some .Sub
  | .Star => some .Mul
  | .Slash => some .Div
  | .And => some .And
  | .Or => some .Or
  | .Eq => some .Eq
  | .Ne => some .Ne
  | .Lt => some .Lt
  | .Gt => some .Gt
  | .Le => some .Le
  | .Ge => some .Ge
  | _ => none

/-- Modelled from the spec (section 7): the error taxonomy. `Eof` carries the
descriptive location string, `ExpressionSyntax` the offending token. -/
inductive Error where
  | Eof (loc : String)
  | ExpressionSyntax (t : TokenWithContext)
  | UndefinedVariable (name : String)
  | TypeError (msg : String)
  | UnknownMethod (name : String)

/-- Modelled from the spec (section 3): a `Term` is a constant value or a
variable reference. -/
inductive Term where
  | Constant (value : Value)
  | Var (name : String)

/-- Modelled from the spec (sections 3 and 6): the context is an opaque
name-to-value mapping with lookup by name, embedded as an association list. -/
abbrev Context := List (String × Value)

/-- Modelled from the spec (section 6): context lookup by name. -/
def lookupVar (ctx : Context) (name : String) : Option Value :=
  match ctx with
  | [] => none
  | (k, v) :: rest => if k = name then some v else lookupVar rest name

/-- Modelled from the spec (section 4.3): `Term::evaluate` — a constant
returns itself; a variable performs a context lookup, failing with an
undefined-variable error if absent. -/
def Term.evaluate (t : Term) (ctx : Context) : Except Error Value :=
  match t with
  | .Constant v => .ok v
  | .Var name =>
    match lookupVar ctx name with
    | some v => .ok v
    | none => .error (.UndefinedVariable name)

/-- Modelled from the spec (section 4.3): string subtraction removes the
first occurrence of the right string from the left. -/
def removeFirst (s pat : String) : String :=
  match s.splitOn pat with
  | [] => s
  | [only] => only
  | h :: t => h ++ String.intercalate pat t

/-- Modelled from the spec (section 4.3): string repetition by an integer. -/
def repeatStr (s : String) (n : Int) : String :=
  String.join (List.replicate n.toNat s)

/-- Modelled from the spec (section 4.3): list repetition by an integer. -/
def repeatList (l : List Value) (n : Int) : List Value :=
  (List.replicate n.toNat l).flatten

/-- Modelled from the spec (section 4.3): `Op::evaluate_binary`, the per-type
binary operator semantics. Integer arithmetic is standard with an error on
division by zero; strings concatenate, subtract by first-occurrence removal
and repeat by an integer on either side; a list repeats by an integer;
boolean and/or combine booleans; comparisons are per-type; incompatible
operand types fail with a type error. Float arithmetic is outside the
claims and is collapsed into the type-error case (float payloads are opaque
in this model). -/
def Op.evaluate_binary (op : Op) (a b : Value) : Except Error Value :=
  match op, a, b with
  | .Add, .Integer x, .Integer y => .ok (.Integer (x + y))
  | .Add, .Str x, .Str y => .ok (.Str (x ++ y))
  | .Sub, .Integer x, .Integer y => .ok (.Integer (x - y))
  | .Sub, .Str x, .Str y => .ok (.Str (removeFirst x y))
  | .Mul, .Integer x, .Integer y => .ok (.Integer (x * y))
  | .Mul, .Str s, .Integer n => .ok (.Str (repeatStr s n))
  | .Mul, .Integer n, .Str s => .ok (.Str (repeatStr s n))
  | .Mul, .List l, .Integer n => .ok (.List (repeatList l n))
  | .Div, .Integer x, .Integer y =>
    if y = 0 then .error (.TypeError "division by zero")
    else .ok (.Integer (x / y))
  | .And, .Boolean x, .Boolean y => .ok (.Boolean (x && y))
  | .Or, .Boolean x, .Boolean y => .ok (.Boolean (x || y))
  | .Eq, .Integer x, .Integer y => .ok (.Boolean (x == y))
  | .Eq, .Str x, .Str y => .ok (.Boolean (x == y))
  | .Eq, .Boolean x, .Boolean y => .ok (.Boolean (x == y))
  | .Ne, .Integer x, .Integer y => .ok (.Boolean (x != y))
  | .Ne, .Str x, .Str y => .ok (.Boolean (x != y))
  | .Ne, .Boolean x, .Boolean y => .ok (.Boolean (x != y))
  | .Lt, .Integer x, .Integer y => .ok (.Boolean (decide (x < y)))
  | .Gt, .Integer x, .Integer y => .ok (.Boolean (decide (x > y)))
  | .Le, .Integer x, .Integer y => .ok (.Boolean (decide (x ≤ y)))
  | .Ge, .Integer x, .Integer y => .ok (.Boolean (decide (x ≥ y)))
  | _, _, _ => .error (.TypeError "unsupported operand types")

/-- Modelled from the spec (section 4.3): `Op::evaluate_unary`. `Not` negates
a boolean, unary `Sub` negates a number, unary `Add` is the identity on a
number; anything else is a type error. -/
def Op.evaluate_unary (op : Op) (v : Value) : Except Error Value :=
  match op, v with
  | .Not, .Boolean b => .ok (.Boolean !b)
  | .Sub, .Integer i => .ok (.Integer (-i))
  | .Add, .Integer i => .ok (.Integer i)
  | _, _ => .error (.TypeError "unsupported operand type")

/-- Modelled from the spec (sections 4.3 and 9): `Value::call`, the closed
dynamic dispatch table keyed by method name: string methods, hash key
access, and integer-named positional access on lists; an unrecognized name
fails with an unknown-method error. -/
def valueCall (v : Value) (name : String) (args : List Value) : Except Error Value :=
  match v, args with
  | .Str s, [] =>
    match name with
    | "upcase" => .ok (.Str s.toUpper)
    | "downcase" => .ok (.Str s.toLower)
    | "trim" => .ok (.Str s.trim)
    | "to_string" => .ok (.Str s)
    | _ => .error (.UnknownMethod name)
  | .Integer i, [] =>
    match name with
    | "to_string" => .ok (.Str (toString i))
    | _ => .error (.UnknownMethod name)
  | .Hash entries, [] =>
    match lookupVar entries name with
    | some v => .ok v
    | none => .error (.UnknownMethod name)
  | .List l, [] =>
    match name.toNat? with
    | some n =>
      match l.get? n with
      | some v => .ok v
      | none => .error (.UnknownMethod name)
    | none => .error (.UnknownMethod name)
  | _, _ => .error (.UnknownMethod name)

/-- The expression AST of `expression.rs`: binary and unary operations,
leaf terms, list literals and method-style function calls. -/
inductive Expression where
  | Binary (left : Expression) (op : Op) (right : Expression)
  | Unary (op : Op) (operand : Expression)
  | Term (term : Term)
  | List (terms : List Expression)
  | Function (term : Expression) (name : String) (args : List Expression)

/-- The helper `Expression::constant` of `expression.rs`. -/
def Expression.constant (v : Value) : Expression :=
  .Term (.Constant v)

/-- The helper `Expression::variable` of `expression.rs` (named `var` here
because `variable` is a Lean keyword). -/
def Expression.var (name : String) : Expression :=
  .Term (.Var name)

mutual

/-- The evaluator `Expression::evaluate` of `expression.rs`: a term delegates
to `Term::evaluate`; a binary node evaluates left then right then dispatches
to the binary operator semantics; a unary node evaluates its operand then
dispatches; a list evaluates its elements in order; a function call
evaluates the receiver, then the arguments in order, then dispatches by
name. -/
def Expression.evaluate (e : Expression) (ctx : Context) : Except Error Value :=
  match e with
  | .Term t => t.evaluate ctx
  | .Binary left op right => do
    let l ← left.evaluate ctx
    let r ← right.evaluate ctx
    op.evaluate_binary l r
  | .Unary op operand => do
    let v ← operand.evaluate ctx
    op.evaluate_unary v
  | .List terms => do
    let vs ← evalExprList terms ctx
    pure (Value.List vs)
  | .Function term name args => do
    let v ← term.evaluate ctx
    let argv ← evalExprList args ctx
    valueCall v name argv

/-- The element-by-element evaluation used by `Expression::evaluate` for
`List` elements (the push loop) and `Function` arguments (the fallible
`collect`): strictly in order, stopping at the first error. -/
def evalExprList (es : List Expression) (ctx : Context) : Except Error (List Value) :=
  match es with
  | [] => .ok []
  | e :: rest => do
    let v ← e.evaluate ctx
    let vs ← evalExprList rest ctx
    pure (v :: vs)

end

/-- Result type of the fueled parser functions: the outer `Option` is `none`
exactly when the fuel ran out (a modelling artifact, never produced on the
fuel bounds used in the theorems below); the inner `Except` carries the
errors the Rust code itself returns. -/
abbrev PResult (α : Type) := Option (Except Error α)

/-- Sequencing for `PResult`: fuel exhaustion and errors both propagate. -/
def bindP {α β : Type} (x : PResult α) (f : α → PResult β) : PResult β :=
  match x with
  | none => none
  | some (.error e) => some (.error e)
  | some (.ok a) => f a

/-- A successful parser result. -/
def pureP {α : Type} (a : α) : PResult α :=
  some (.ok a)

/-- A parser error result. -/
def errP {α : Type} (e : Error) : PResult α :=
  some (.error e)

/-- Discriminator for the `Dot` token, used where the Rust code peeks for a
dot with a wildcard fallback. -/
def Token.isDot : Token → Bool
  | .Dot => true
  | _ => false

/-- Discriminator for the `BlockEnd` token. -/
def Token.isBlockEnd : Token → Bool
  | .BlockEnd => true
  | _ => false

/-- Discriminator for the `RoundBracketStart` token. -/
def Token.isRoundBracketStart : Token → Bool
  | .RoundBracketStart => true
  | _ => false

/-- The bracket-depth counting loop of the `RoundBracketStart` arm of
`Expression::term` (expression.rs lines 133-168): starting at depth
`count`, collect the tokens strictly inside the parentheses, returning them
together with the tokens after the matching close bracket. Exhaustion is an
`Eof` error and a `BlockEnd` before the matching close is a syntax error. -/
def scanParen (count : Nat) (toks : Tokens) : Except Error (Tokens × Tokens) :=
  match toks with
  | [] => .error (.Eof "round bracket start")
  | t :: rest =>
    match t.token with
    | .RoundBracketStart =>
      match scanParen (count + 1) rest with
      | .error e => .error e
      | .ok (inner, rem) => .ok (t :: inner, rem)
    | .RoundBracketEnd =>
      if count = 1 then .ok ([], rest)
      else
        match scanParen (count - 1) rest with
        | .error e => .error e
        | .ok (inner, rem) => .ok (t :: inner, rem)
    | .BlockEnd => .error (.ExpressionSyntax t)
    | _ =>
      match scanParen count rest with
      | .error e => .error e
      | .ok (inner, rem) => .ok (t :: inner, rem)

/-- The list-literal loop of the `SquareBracketStart` arm of
`Expression::term` (expression.rs lines 174-191): consume tokens until
`SquareBracketEnd`, skipping commas, turning `Value` and `Variable` tokens
into element expressions, and failing with a syntax error carrying any
other token; exhaustion is an `Eof` error. -/
def scanList (toks : Tokens) : Except Error (List Expression × Tokens) :=
  match toks with
  | [] => .error (.Eof "term token")
  | t :: rest =>
    match t.token with
    | .SquareBracketEnd => .ok ([], rest)
    | .Comma => scanList rest
    | .Value v =>
      match scanList rest with
      | .error e => .error e
      | .ok (terms, rem) => .ok (Expression.constant v :: terms, rem)
    | .Var name =>
      match scanList rest with
      | .error e => .error e
      | .ok (terms, rem) => .ok (Expression.var name :: terms, rem)
    | _ => .error (.ExpressionSyntax t)

mutual

/-- The parser function `Expression::term` of `expression.rs` (lines
106-201), with the peekable iterator embedded as token-list state passing
and a structural fuel parameter. `Not`, `Minus` and `Plus` recursively
parse the operand and wrap it in a `Unary` node; `RoundBracketStart` scans
to the matching close with `scanParen`, recursively parses the inside with
`parseF` (dropping any unconsumed inner leftovers, as the Rust code drops
the inner iterator), and feeds the result to `functionF`;
`Value`/`Variable`/`SquareBracketStart` build the leaf or list and feed it
to `functionF`; any other token is a syntax error. -/
def termF (fuel : Nat) (toks : Tokens) : PResult (Expression × Tokens) :=
  match fuel with
  | 0 => none
  | fuel + 1 =>
    match toks with
    | [] => errP (.Eof "term next")
    | next :: rest =>
      match next.token with
      | .Not =>
        bindP (termF fuel rest) fun (operand, rem) =>
          pureP (Expression.Unary .Not operand, rem)
      | .Minus =>
        bindP (termF fuel rest) fun (operand, rem) =>
          pureP (Expression.Unary .Sub operand, rem)
      | .Plus =>
        bindP (termF fuel rest) fun (operand, rem) =>
          pureP (Expression.Unary .Add operand, rem)
      | .RoundBracketStart =>
        match scanParen 1 rest with
        | .error e => errP e
        | .ok (inner, rem) =>
          bindP (parseF fuel inner) fun (e, _leftover) =>
            functionF fuel e rem
      | .Value v => functionF fuel (Expression.constant v) rest
      | .Var name => functionF fuel (Expression.var name) rest
      | .SquareBracketStart =>
        match scanList rest with
        | .error e => errP e
        | .ok (terms, rem) => functionF fuel (Expression.List terms) rem
      | _ => errP (.ExpressionSyntax next)

/-- The parser function `Expression::function` of `expression.rs` (lines
204-280): while the next token is a `Dot`, consume it and the following
name token. A `Variable` name followed by `RoundBracketStart` hands the
whole remaining stream to the argument-scanning loop `scanArgsF` (which, as
in the Rust code, runs the iterator to exhaustion) and continues with an
empty stream; a `Variable` name not followed by `RoundBracketStart` is a
zero-argument call; an integer `Value` name is positional access, a
zero-argument call named by the stringified integer; any other name token
is a syntax error. -/
def functionF (fuel : Nat) (expr : Expression) (toks : Tokens) : PResult (Expression × Tokens) :=
  match fuel with
  | 0 => none
  | fuel + 1 =>
    match toks with
    | [] => pureP (expr, [])
    | t :: rest =>
      if t.token.isDot then
        match rest with
        | [] => errP (.Eof "accessor name")
        | name :: rest₂ =>
          match name.token with
          | .Var nm =>
            match rest₂ with
            | [] => functionF fuel (Expression.Function expr nm []) []
            | lp :: rest₃ =>
              if lp.token.isRoundBracketStart then
                bindP (scanArgsF fuel rest₃ [] []) fun args =>
                  functionF fuel (Expression.Function expr nm args) []
              else
                functionF fuel (Expression.Function expr nm []) rest₂
          | .Value (.Integer n) =>
            functionF fuel (Expression.Function expr (toString n) []) rest₂
          | _ => errP (.ExpressionSyntax name)
      else
        pureP (expr, toks)

/-- The argument-collecting loop inside `Expression::function`
(expression.rs lines 228-249): consume tokens from the stream until it is
exhausted; every `RoundBracketEnd` or `Comma` flushes the buffered tokens
through `parseF` as one argument (leftover tokens of that sub-parse are
dropped with the buffer iterator); any other token is buffered. When the
stream ends, the current buffer is discarded and the collected arguments
are returned. The buffer is accumulated in reverse; `args` likewise. -/
def scanArgsF (fuel : Nat) (toks : Tokens) (buffer : Tokens) (args : List Expression) :
    PResult (List Expression) :=
  match fuel with
  | 0 => none
  | fuel + 1 =>
    match toks with
    | [] => pureP args.reverse
    | t :: rest =>
      match t.token with
      | .RoundBracketEnd =>
        bindP (parseF fuel buffer.reverse) fun (arg, _leftover) =>
          scanArgsF fuel rest [] (arg :: args)
      | .Comma =>
        bindP (parseF fuel buffer.reverse) fun (arg, _leftover) =>
          scanArgsF fuel rest [] (arg :: args)
      | _ => scanArgsF fuel rest (t :: buffer) args

/-- The parser entry point `Expression::parse` of `expression.rs` (lines
283-360): parse a left term; if no operator token follows, return it.
Otherwise consume the operator and parse a right term; if `BlockEnd` or
end-of-stream follows, return the binary node; if another operator
follows, consume it, recursively parse the remainder and group the three
operands by the pairwise precedence comparison (`second_op < op`, lower
rank binds tighter); a non-operator token there is a syntax error. -/
def parseF (fuel : Nat) (toks : Tokens) : PResult (Expression × Tokens) :=
  match fuel with
  | 0 => none
  | fuel + 1 =>
    bindP (termF fuel toks) fun (left, r₁) =>
      match r₁ with
      | [] => pureP (left, r₁)
      | nx :: r₂ =>
        match Op.from_token nx.token with
        | none => pureP (left, r₁)
        | some op =>
          bindP (termF fuel r₂) fun (right, r₃) =>
            match r₃ with
            | [] => pureP (Expression.Binary left op right, r₃)
            | nx₂ :: r₄ =>
              if nx₂.token.isBlockEnd then
                pureP (Expression.Binary left op right, r₃)
              else
                match Op.from_token nx₂.token with
                | some op₂ =>
                  bindP (parseF fuel r₄) fun (right2, r₅) =>
                    if op₂.ltOp op then
                      pureP (Expression.Binary left op
                        (Expression.Binary right op₂ right2), r₅)
                    else
                      pureP (Expression.Binary
                        (Expression.Binary left op right) op₂ right2, r₅)
                | none => errP (.ExpressionSyntax nx₂)

end

/-- Shorthand for a token with irrelevant position metadata, used in
concrete inputs. -/
def tk (t : Token) : TokenWithContext :=
  ⟨t, 0⟩

/-- Tokens that form a bare atom (a literal or a variable) and the leaf
expression the parser builds for them. -/
def atomExpr : Token → Option Expression
  | .Value v => some (Expression.constant v)
  | .Var name => some (Expression.var name)
  | _ => none

/-- Discriminator for the `SquareBracketEnd` token. -/
def Token.isSquareBracketEnd : Token → Bool
  | .SquareBracketEnd => true
  | _ => false

/-- Holds when a token stream is empty or does not begin with `Dot`, the
condition under which `Expression::function` returns without consuming
anything. -/
def notDotStart (ts : Tokens) : Bool :=
  match ts with
  | [] => true
  | t :: _ => !t.token.isDot

/-- Holds when a token stream is empty or does not begin with
`RoundBracketStart`, the condition under which a method name is parsed as a
zero-argument call. -/
def notRoundStart (ts : Tokens) : Bool :=
  match ts with
  | [] => true
  | t :: _ => !t.token.isRoundBracketStart

/-- Tokens accepted inside a square-bracket list literal: literals,
variables and the comma separator. -/
def isListElemTok (t : TokenWithContext) : Bool :=
  match t.token with
  | .Value _ => true
  | .Var _ => true
  | .Comma => true
  | _ => false

/-- The element expressions a well-formed list-literal token run denotes:
each literal or variable in order, commas skipped. -/
def listElems (ts : Tokens) : List Expression :=
  ts.filterMap fun t =>
    match t.token with
    | .Value v => some (Expression.constant v)
    | .Var name => some (Expression.var name)
    | _ => none

/-- The parse-then-evaluate pipeline shared by the string entry point:
parse the token stream, then evaluate the resulting expression against the
context. The outer `none` here is only fuel exhaustion. -/
def parseAndEvaluate (fuel : Nat) (toks : Tokens) (ctx : Context) :
    Option (Except Error Value) :=
  match parseF fuel toks with
  | none => none
  | some (.error e) => some (.error e)
  | some (.ok (expr, _rest)) => some (expr.evaluate ctx)

/-- The string convenience entry point, `Evaluate for &str` of
`expression.rs` (lines 375-381): tokenization errors propagate; otherwise
the leading sentinel token is discarded by the `[1..]` slice — an
out-of-range slice that panics when the token list is empty, modelled by
`none` — and the rest is parsed and evaluated. The tokenizer is external
to the given sources, so its output is a parameter. -/
def strEvaluate (fuel : Nat) (tokenized : Except Error Tokens) (ctx : Context) :
    Option (Except Error Value) :=
  match tokenized with
  | .error e => some (.error e)
  | .ok tokens =>
    if 1 ≤ tokens.length then parseAndEvaluate fuel (tokens.drop 1) ctx
    else none

example : (Expression.constant (.Integer 5)).evaluate [] = .ok (.Integer 5) := rfl

example : (Expression.List [.var "x"]).evaluate [] = .error (.UndefinedVariable "x") := rfl

example :
    parseF 9 [tk (.Value (.Integer 1)), tk .Plus, tk (.Value (.Integer 2))] =
      pureP (.Binary (Expression.constant (.Integer 1)) .Add
        (Expression.constant (.Integer 2)), []) := rfl

example :
    parseF 20 [tk (.Value (.Integer 2)), tk .Star, tk (.Value (.Integer 2)),
      tk .Plus, tk (.Value (.Integer 3)), tk .Star, tk (.Value (.Integer 5)),
      tk .BlockEnd] =
      pureP (.Binary
        (.Binary (Expression.constant (.Integer 2)) .Mul (Expression.constant (.Integer 2)))
        .Add
        (.Binary (Expression.constant (.Integer 3)) .Mul (Expression.constant (.Integer 5))),
        [tk .BlockEnd]) := rfl

lemma bindP_pure {α β : Type} (a : α) (f : α → PResult β) :
    bindP (pureP a) f = f a := rfl

lemma bindP_err {α β : Type} (e : Error) (f : α → PResult β) :
    bindP (errP e) f = errP e := rfl

lemma isDot_of_from_token {t : Token} {op : Op} (h : Op.from_token t = some op) :
    t.isDot = false := by
  cases t <;> simp_all [Op.from_token, Token.isDot]

lemma isBlockEnd_of_from_token {t : Token} {op : Op} (h : Op.from_token t = some op) :
    t.isBlockEnd = false := by
  cases t <;> simp_all [Op.from_token, Token.isBlockEnd]

lemma termF_atom {t : TokenWithContext} {e : Expression} (fuel : Nat) (rest : Tokens)
    (h : atomExpr t.token = some e) :
    termF (fuel + 1) (t :: rest) = functionF fuel e rest := by
  obtain ⟨tok, p⟩ := t
  cases tok <;> simp_all [atomExpr] <;> subst h <;> rfl

lemma functionF_notDot {t : TokenWithContext} (fuel : Nat) (expr : Expression)
    (rest : Tokens) (h : t.token.isDot = false) :
    functionF (fuel + 1) expr (t :: rest) = pureP (expr, t :: rest) := by
  unfold functionF
  simp [h]

lemma functionF_nil (fuel : Nat) (expr : Expression) :
    functionF (fuel + 1) expr [] = pureP (expr, []) := rfl

/-- C1: for a three-operand token sequence `a OP1 b OP2 c`, followed by
`BlockEnd` or by nothing, `Expression::parse` groups by the pairwise
precedence comparison: when OP2 binds strictly tighter than OP1 (strictly
lower rank) it returns `Binary(a, OP1, Binary(b, OP2, c))`, and otherwise —
equal precedence included — it returns `Binary(Binary(a, OP1, b), OP2, c)`. -/
theorem c1_three_operand_precedence_grouping
    (a o1 b o2 c be : TokenWithContext) (ea eb ec : Expression) (op1 op2 : Op)
    (ha : atomExpr a.token = some ea) (hb : atomExpr b.token = some eb)
    (hc : atomExpr c.token = some ec)
    (h1 : Op.from_token o1.token = some op1) (h2 : Op.from_token o2.token = some op2)
    (hbe : be.token = Token.BlockEnd) :
    parseF 9 [a, o1, b, o2, c] =
      (if op2.ltOp op1 then
          pureP (Expression.Binary ea op1 (Expression.Binary eb op2 ec), [])
        else
          pureP (Expression.Binary (Expression.Binary ea op1 eb) op2 ec, [])) ∧
    parseF 9 [a, o1, b, o2, c, be] =
      (if op2.ltOp op1 then
          pureP (Expression.Binary ea op1 (Expression.Binary eb op2 ec), [be])
        else
          pureP (Expression.Binary (Expression.Binary ea op1 eb) op2 ec, [be])) := by
  have hd1 := isDot_of_from_token h1
  have hd2 := isDot_of_from_token h2
  have hbe2 := isBlockEnd_of_from_token h2
  have hbed : be.token.isDot = false := by rw [hbe]; rfl
  have hben : Op.from_token be.token = none := by rw [hbe]; rfl
  constructor <;>
  simp only [parseF, termF_atom _ _ ha, termF_atom _ _ hb, termF_atom _ _ hc,
    functionF_notDot _ _ _ hd1, functionF_notDot _ _ _ hd2,
    functionF_notDot _ _ _ hbed, functionF_nil,
    bindP_pure, h1, h2, hd2, hbe2, hben] <;>
  simp

/-- Witness for C1 at the concrete sequence `2 * 2 + 3`: multiplication
binds tighter than the following addition, so the result is the
left-grouped `(2 * 2) + 3`, both without and with a trailing `BlockEnd`. -/
theorem c1_three_operand_precedence_grouping_witness :
    parseF 9 [tk (.Value (.Integer 2)), tk .Star, tk (.Value (.Integer 2)),
        tk .Plus, tk (.Value (.Integer 3))] =
      (if Op.ltOp .Add .Mul then
          pureP (Expression.Binary (Expression.constant (.Integer 2)) .Mul
            (Expression.Binary (Expression.constant (.Integer 2)) .Add
              (Expression.constant (.Integer 3))), [])
        else
          pureP (Expression.Binary
            (Expression.Binary (Expression.constant (.Integer 2)) .Mul
              (Expression.constant (.Integer 2))) .Add
            (Expression.constant (.Integer 3)), [])) ∧
    parseF 9 [tk (.Value (.Integer 2)), tk .Star, tk (.Value (.Integer 2)),
        tk .Plus, tk (.Value (.Integer 3)), tk .BlockEnd] =
      (if Op.ltOp .Add .Mul then
          pureP (Expression.Binary (Expression.constant (.Integer 2)) .Mul
            (Expression.Binary (Expression.constant (.Integer 2)) .Add
              (Expression.constant (.Integer 3))), [tk .BlockEnd])
        else
          pureP (Expression.Binary
            (Expression.Binary (Expression.constant (.Integer 2)) .Mul
              (Expression.constant (.Integer 2))) .Add
            (Expression.constant (.Integer 3)), [tk .BlockEnd])) :=
  c1_three_operand_precedence_grouping
    (tk (.Value (.Integer 2))) (tk .Star) (tk (.Value (.Integer 2)))
    (tk .Plus) (tk (.Value (.Integer 3))) (tk .BlockEnd)
    (Expression.constant (.Integer 2)) (Expression.constant (.Integer 2))
    (Expression.constant (.Integer 3)) .Mul .Add
    rfl rfl rfl rfl rfl rfl

/-- C2: the claim says the argument scan of `Expression::function` consumes
tokens only up to the matching `RoundBracketEnd`, leaving everything after
the close bracket for the enclosing parser. The code instead runs its loop
until the token iterator is exhausted: on the input `.f(1) + 2` after a
receiver, it returns successfully with the argument list `[1]` and an empty
remainder, having consumed and silently discarded the trailing `+ 2`
(which the claim requires to remain unconsumed). -/
theorem c2_args_scan_consumes_past_close :
    functionF 9 (Expression.var "x")
        [tk .Dot, tk (.Var "f"), tk .RoundBracketStart,
         tk (.Value (.Integer 1)), tk .RoundBracketEnd,
         tk .Plus, tk (.Value (.Integer 2))] =
      pureP (Expression.Function (Expression.var "x") "f"
        [Expression.constant (.Integer 1)], []) := rfl

/-- C3: the claim says every unterminated parenthesis, bracket or
call-argument list makes parsing fail with `EndOfInput` or `SyntaxError`.
For an unterminated call-argument list the code instead succeeds: on
`x.f(1` with no closing bracket, the argument loop exhausts the iterator,
throws away the buffered `1`, and `Expression::parse` returns a successful
parse of a zero-argument call `x.f()`. -/
theorem c3_unterminated_call_parses_successfully :
    parseF 9 [tk (.Var "x"), tk .Dot, tk (.Var "f"),
        tk .RoundBracketStart, tk (.Value (.Integer 1))] =
      pureP (Expression.Function (Expression.var "x") "f" [], []) := rfl

lemma evalExprList_append_err (pre post : List Expression) (e : Expression)
    (ctx : Context) (vs : List Value) (err : Error)
    (hpre : evalExprList pre ctx = .ok vs)
    (he : e.evaluate ctx = .error err) :
    evalExprList (pre ++ e :: post) ctx = .error err := by
  induction pre generalizing vs with
  | nil =>
    simp [evalExprList, he, Bind.bind, Except.bind]
  | cons x xs ih =>
    rw [evalExprList] at hpre
    simp only [Bind.bind, Except.bind] at hpre
    cases hx : x.evaluate ctx with
    | error ex => rw [hx] at hpre; exact absurd hpre (by simp)
    | ok vx =>
      rw [hx] at hpre
      cases hxs : evalExprList xs ctx with
      | error exs => rw [hxs] at hpre; exact absurd hpre (by simp)
      | ok vxs =>
        rw [List.cons_append, evalExprList]
        simp only [Bind.bind, Except.bind, hx]
        rw [ih vxs hxs]

/-- C4: `Expression::evaluate` on a `Binary` node — whatever the operator,
`And` and `Or` included — fully evaluates the left operand and then fully
evaluates the right operand before dispatching to the binary operator
semantics, with no short-circuiting: whenever the left operand evaluates
to any value and the right operand's evaluation fails, the whole
evaluation fails with that error, even where the left value alone would
have determined the result. -/
theorem c4_binary_no_short_circuit
    (l r : Expression) (op : Op) (ctx : Context) (lv : Value) (err : Error)
    (hl : l.evaluate ctx = .ok lv)
    (hr : r.evaluate ctx = .error err) :
    (Expression.Binary l op r).evaluate ctx = .error err := by
  rw [Expression.evaluate]
  simp [hl, hr, Bind.bind, Except.bind]

/-- Witness for C4: `true || missing` with an empty context fails with the
undefined-variable error for the right operand although the left operand
already evaluated to `true`. -/
theorem c4_binary_no_short_circuit_witness :
    (Expression.Binary (Expression.constant (.Boolean true)) .Or
        (Expression.var "missing")).evaluate [] =
      .error (.UndefinedVariable "missing") :=
  c4_binary_no_short_circuit
    (Expression.constant (.Boolean true)) (Expression.var "missing") .Or []
    (.Boolean true) (.UndefinedVariable "missing") rfl rfl

/-- C7: parsing and evaluation are pure and deterministic — both are plain
functions of their inputs in this embedding (the Rust code takes shared
references and touches no global state), so evaluating one expression
against equal contexts gives equal results and parsing equal token
sequences with equal fuel gives structurally equal trees. -/
theorem c7_parse_evaluate_deterministic :
    (∀ (e : Expression) (c₁ c₂ : Context), c₁ = c₂ →
      e.evaluate c₁ = e.evaluate c₂) ∧
    (∀ (fuel : Nat) (ts₁ ts₂ : Tokens), ts₁ = ts₂ →
      parseF fuel ts₁ = parseF fuel ts₂) :=
  ⟨fun _ _ _ h => by rw [h], fun _ _ _ h => by rw [h]⟩

/-- Witness for C7 at a concrete expression, context and token sequence. -/
theorem c7_parse_evaluate_deterministic_witness :
    (Expression.var "x").evaluate [("x", Value.Integer 1)] =
      (Expression.var "x").evaluate [("x", Value.Integer 1)] ∧
    parseF 9 [tk (.Value (.Integer 1))] = parseF 9 [tk (.Value (.Integer 1))] :=
  ⟨c7_parse_evaluate_deterministic.1 (Expression.var "x")
      [("x", Value.Integer 1)] [("x", Value.Integer 1)] rfl,
    c7_parse_evaluate_deterministic.2 9
      [tk (.Value (.Integer 1))] [tk (.Value (.Integer 1))] rfl⟩

/-- C8: evaluation is fail-fast with no partial results. For a `List`
expression the elements are evaluated strictly in order and the first
failing element aborts the whole evaluation with its error unchanged (no
`Value::List` is produced); for a `Function` expression the receiver is
evaluated first — its error propagates unchanged — and then the arguments
in order, the first failing argument propagating unchanged. -/
theorem c8_fail_fast_first_error_propagates :
    (∀ (ctx : Context) (pre post : List Expression) (e : Expression)
       (vs : List Value) (err : Error),
      evalExprList pre ctx = .ok vs →
      e.evaluate ctx = .error err →
      (Expression.List (pre ++ e :: post)).evaluate ctx = .error err) ∧
    (∀ (ctx : Context) (t : Expression) (name : String) (args : List Expression)
       (err : Error),
      t.evaluate ctx = .error err →
      (Expression.Function t name args).evaluate ctx = .error err) ∧
    (∀ (ctx : Context) (t : Expression) (name : String)
       (pre post : List Expression) (e : Expression) (v : Value)
       (vs : List Value) (err : Error),
      t.evaluate ctx = .ok v →
      evalExprList pre ctx = .ok vs →
      e.evaluate ctx = .error err →
      (Expression.Function t name (pre ++ e :: post)).evaluate ctx = .error err) := by
  refine ⟨?_, ?_, ?_⟩
  · intro ctx pre post e vs err hpre he
    rw [Expression.evaluate]
    rw [evalExprList_append_err pre post e ctx vs err hpre he]
    simp [Bind.bind, Except.bind]
  · intro ctx t name args err ht
    rw [Expression.evaluate]
    simp [ht, Bind.bind, Except.bind]
  · intro ctx t name pre post e v vs err ht hpre he
    rw [Expression.evaluate]
    rw [evalExprList_append_err pre post e ctx vs err hpre he]
    simp [ht, Bind.bind, Except.bind]

/-- Witness for C8: a list whose second element is undefined fails with
that error and produces no list value; a call whose receiver is undefined
fails with the receiver's error; a call whose second argument is undefined
fails with that argument's error. -/
theorem c8_fail_fast_first_error_propagates_witness :
    (Expression.List ([Expression.constant (.Integer 1)] ++
        Expression.var "u" :: [Expression.constant (.Integer 2)])).evaluate [] =
      .error (.UndefinedVariable "u") ∧
    (Expression.Function (Expression.var "u") "m" []).evaluate [] =
      .error (.UndefinedVariable "u") ∧
    (Expression.Function (Expression.constant (.Str "s")) "m"
        ([Expression.constant (.Integer 1)] ++
          Expression.var "u" :: [])).evaluate [] =
      .error (.UndefinedVariable "u") :=
  ⟨c8_fail_fast_first_error_propagates.1 []
      [Expression.constant (.Integer 1)] [Expression.constant (.Integer 2)]
      (Expression.var "u") [.Integer 1] (.UndefinedVariable "u") rfl rfl,
    c8_fail_fast_first_error_propagates.2.1 []
      (Expression.var "u") "m" [] (.UndefinedVariable "u") rfl,
    c8_fail_fast_first_error_propagates.2.2 []
      (Expression.constant (.Str "s")) "m"
      [Expression.constant (.Integer 1)] [] (Expression.var "u")
      (.Str "s") [.Integer 1] (.UndefinedVariable "u") rfl rfl rfl⟩

lemma scanList_all_good (pre : Tokens) (s₂ : TokenWithContext) (rest : Tokens)
    (hs₂ : s₂.token = Token.SquareBracketEnd)
    (hpre : pre.all isListElemTok = true) :
    scanList (pre ++ s₂ :: rest) = .ok (listElems pre, rest) := by
  induction pre with
  | nil =>
    rw [List.nil_append, scanList, hs₂]
    rfl
  | cons t ts ih =>
    rw [List.all_cons, Bool.and_eq_true] at hpre
    obtain ⟨ht, hts⟩ := hpre
    rw [List.cons_append, scanList]
    cases htok : t.token <;>
      simp_all [isListElemTok, listElems, List.filterMap_cons, ih hts]

lemma scanList_bad_token (pre : Tokens) (bad : TokenWithContext) (rest₂ : Tokens)
    (hpre : pre.all isListElemTok = true)
    (hbad : isListElemTok bad = false)
    (hbade : bad.token.isSquareBracketEnd = false) :
    scanList (pre ++ bad :: rest₂) = .error (.ExpressionSyntax bad) := by
  induction pre with
  | nil =>
    rw [List.nil_append, scanList]
    cases htok : bad.token <;>
      simp_all [isListElemTok, Token.isSquareBracketEnd]
  | cons t ts ih =>
    rw [List.all_cons, Bool.and_eq_true] at hpre
    obtain ⟨ht, hts⟩ := hpre
    rw [List.cons_append, scanList]
    cases htok : t.token <;>
      simp_all [isListElemTok, ih hts]

/-- C5: on `SquareBracketStart`, `Expression::term` consumes tokens up to
`SquareBracketEnd`, accepting only `Value` and `Variable` tokens (with
`Comma` separators skipped) as list elements and returning
`Expression::List` of those elements in order; any other token inside the
brackets fails the parse with a `SyntaxError` carrying that token. -/
theorem c5_square_bracket_list_literal
    (s₁ s₂ bad : TokenWithContext) (pre rest rest₂ : Tokens) (fuel : Nat)
    (hs₁ : s₁.token = Token.SquareBracketStart)
    (hs₂ : s₂.token = Token.SquareBracketEnd)
    (hpre : pre.all isListElemTok = true)
    (hrest : notDotStart rest = true)
    (hbad : isListElemTok bad = false)
    (hbade : bad.token.isSquareBracketEnd = false) :
    termF (fuel + 2) (s₁ :: pre ++ s₂ :: rest) =
      pureP (Expression.List (listElems pre), rest) ∧
    termF (fuel + 2) (s₁ :: pre ++ bad :: rest₂) =
      errP (.ExpressionSyntax bad) := by
  constructor
  · rw [List.cons_append]
    rw [show fuel + 2 = (fuel + 1) + 1 from rfl]
    rw [termF, hs₁, scanList_all_good pre s₂ rest hs₂ hpre]
    cases rest with
    | nil => exact functionF_nil fuel _
    | cons r rs =>
      have hr : r.token.isDot = false := by
        unfold notDotStart at hrest
        simpa using hrest
      exact functionF_notDot fuel _ rs hr
  · rw [List.cons_append]
    rw [show fuel + 2 = (fuel + 1) + 1 from rfl]
    rw [termF, hs₁, scanList_bad_token pre bad rest₂ hpre hbad hbade]

/-- Witness for C5 on the literal `[1, y]` followed by `BlockEnd`, and on
the ill-formed literal `[1, y` followed by a `Plus` inside the brackets,
which is the syntax error carrying the `Plus` token. -/
theorem c5_square_bracket_list_literal_witness :
    termF 2 [tk .SquareBracketStart, tk (.Value (.Integer 1)), tk .Comma,
        tk (.Var "y"), tk .SquareBracketEnd, tk .BlockEnd] =
      pureP (Expression.List [Expression.constant (.Integer 1),
        Expression.var "y"], [tk .BlockEnd]) ∧
    termF 2 [tk .SquareBracketStart, tk (.Value (.Integer 1)), tk .Comma,
        tk (.Var "y"), tk .Plus] =
      errP (.ExpressionSyntax (tk .Plus)) :=
  c5_square_bracket_list_literal
    (tk .SquareBracketStart) (tk .SquareBracketEnd) (tk .Plus)
    [tk (.Value (.Integer 1)), tk .Comma, tk (.Var "y")]
    [tk .BlockEnd] [] 0
    rfl rfl rfl rfl rfl rfl

/-- C6: in `Expression::function`, a `Dot` followed by an integer literal
token `n` produces `Function` with the prior expression as receiver, the
stringified integer as the call name and an empty argument list — the
representation of positional access such as `list.0`. -/
theorem c6_integer_dot_positional_access
    (expr : Expression) (d nv : TokenWithContext) (n : Int)
    (rest : Tokens) (fuel : Nat)
    (hd : d.token = Token.Dot)
    (hn : nv.token = Token.Value (.Integer n))
    (hrest : notDotStart rest = true) :
    functionF (fuel + 2) expr (d :: nv :: rest) =
      pureP (Expression.Function expr (toString n) [], rest) := by
  have hdd : d.token.isDot = true := by rw [hd]; rfl
  rw [show fuel + 2 = (fuel + 1) + 1 from rfl, functionF]
  simp only [hdd, if_true, hn]
  cases rest with
  | nil => exact functionF_nil fuel _
  | cons r rs =>
    have hr : r.token.isDot = false := by
      unfold notDotStart at hrest
      simpa using hrest
    exact functionF_notDot fuel _ rs hr

/-- Witness for C6 on `list.0` followed by `BlockEnd`: the result is a
zero-argument call named by the stringified index. -/
theorem c6_integer_dot_positional_access_witness :
    functionF 2 (Expression.var "list")
        [tk .Dot, tk (.Value (.Integer 0)), tk .BlockEnd] =
      pureP (Expression.Function (Expression.var "list") "0" [],
        [tk .BlockEnd]) :=
  c6_integer_dot_positional_access (Expression.var "list")
    (tk .Dot) (tk (.Value (.Integer 0))) 0 [tk .BlockEnd] 0
    rfl rfl rfl

/-- C10: a method call written with an explicit empty argument list —
`Dot`, identifier, `RoundBracketStart`, then immediately `RoundBracketEnd`
— does not parse to a zero-argument call: the empty buffer between the
brackets is handed to `Expression::parse`, whose initial term fetch fails,
so the parse returns the `EndOfInput` error tagged `term next`. The
parenthesis-free form `.name` does produce the zero-argument call. -/
theorem c10_empty_parens_call_is_eof
    (expr : Expression) (d f lp rp : TokenWithContext) (nm : String)
    (rest rest₂ : Tokens) (fuel : Nat)
    (hd : d.token = Token.Dot)
    (hf : f.token = Token.Var nm)
    (hlp : lp.token = Token.RoundBracketStart)
    (hrp : rp.token = Token.RoundBracketEnd)
    (hr2 : notDotStart rest₂ = true)
    (hr2b : notRoundStart rest₂ = true) :
    functionF (fuel + 4) expr (d :: f :: lp :: rp :: rest) =
      errP (.Eof "term next") ∧
    functionF (fuel + 2) expr (d :: f :: rest₂) =
      pureP (Expression.Function expr nm [], rest₂) := by
  have hdd : d.token.isDot = true := by rw [hd]; rfl
  have hlpp : lp.token.isRoundBracketStart = true := by rw [hlp]; rfl
  constructor
  · rw [show fuel + 4 = (fuel + 3) + 1 from rfl, functionF]
    simp only [hdd, if_true, hf, hlpp]
    rw [show fuel + 3 = (fuel + 2) + 1 from rfl, scanArgsF, hrp]
    rw [show (([] : Tokens)).reverse = [] from rfl]
    rw [show fuel + 2 = (fuel + 1) + 1 from rfl, parseF]
    rw [show fuel + 1 = fuel + 1 from rfl, termF]
    rfl
  · rw [show fuel + 2 = (fuel + 1) + 1 from rfl, functionF]
    simp only [hdd, if_true, hf]
    cases rest₂ with
    | nil => exact functionF_nil fuel _
    | cons r rs =>
      have hrd : r.token.isDot = false := by
        unfold notDotStart at hr2
        simpa using hr2
      have hrr : r.token.isRoundBracketStart = false := by
        unfold notRoundStart at hr2b
        simpa using hr2b
      simp only [hrr, Bool.false_eq_true, if_false]
      exact functionF_notDot fuel _ rs hrd

/-- Witness for C10: `.f()` fails with the `EndOfInput` error tagged
`term next`, while the parenthesis-free `.f` followed by `BlockEnd`
succeeds as a zero-argument call. -/
theorem c10_empty_parens_call_is_eof_witness :
    functionF 4 (Expression.var "x")
        [tk .Dot, tk (.Var "f"), tk .RoundBracketStart, tk .RoundBracketEnd] =
      errP (.Eof "term next") ∧
    functionF 2 (Expression.var "x") [tk .Dot, tk (.Var "f"), tk .BlockEnd] =
      pureP (Expression.Function (Expression.var "x") "f" [],
        [tk .BlockEnd]) :=
  c10_empty_parens_call_is_eof (Expression.var "x")
    (tk .Dot) (tk (.Var "f")) (tk .RoundBracketStart) (tk .RoundBracketEnd)
    "f" [] [tk .BlockEnd] 0
    rfl rfl rfl rfl rfl rfl

/-- C9: the string convenience entry point unconditionally slices the
tokenizer output with `[1..]`. On a tokenization that returns an empty
token list the slice is out of range and the call panics (the `none`
outcome) instead of returning an `Error`; on any tokenization with at
least one token the panic branch is never taken and the call proceeds to
parse and evaluate the remaining tokens; a tokenizer error propagates as
an error. -/
theorem c9_sentinel_slice_panics_on_empty :
    (∀ (fuel : Nat) (ctx : Context), strEvaluate fuel (.ok []) ctx = none) ∧
    (∀ (fuel : Nat) (ctx : Context) (t : TokenWithContext) (ts : Tokens),
      strEvaluate fuel (.ok (t :: ts)) ctx = parseAndEvaluate fuel ts ctx) ∧
    (∀ (fuel : Nat) (ctx : Context) (e : Error),
      strEvaluate fuel (.error e) ctx = some (.error e)) := by
  refine ⟨fun fuel ctx => rfl, fun fuel ctx t ts => ?_, fun fuel ctx e => rfl⟩
  simp [strEvaluate]
